import Mathlib

/-!
Verification development for the Air1-Monitor telemetry ingestion subsystem.

The Rust sources are shallowly embedded:
* `src/mqtt.rs`: topic classification (`map_sensor_kind`, `map_publish`),
  subscription-filter derivation (`subscriptions`), TLS root-store setup
  (`tls_config`, with file-system and native-store outcomes abstracted into
  environment records), and the listener loop (`run_listener`), modelled as a
  recursion over a finite script of per-attempt environment behaviours.
* `src/config.rs`: dashboard configuration normalization
  (`DashboardSectionConfig.normalize`, `DashboardConfig.normalize`).
* `src/app.rs`: the consumer-side event reducer (`poll_mqtt` / `applyEvent`).

Machine floats are never computed with in the embedded fragment: the reducer
only stores metric values (embedded as rationals), and the listener only checks
whether a payload parses as a float, which is embedded as the documented
grammar acceptance test `f64Parses` over the payload text.
-/

set_option maxRecDepth 4000

/-! ## Character/string helpers (ASCII, mirroring the Rust std operations used) -/

/-- Model of Rust `char::to_ascii_lowercase`. -/
def lowerChar (c : Char) : Char :=
  if 'A' ≤ c ∧ c ≤ 'Z' then Char.ofNat (c.toNat + 32) else c

/-- Model of Rust `str::to_ascii_lowercase`. -/
def lowerStr (s : String) : String :=
  ⟨s.data.map lowerChar⟩

/-- Whitespace as trimmed by `str::trim` (ASCII fragment). -/
def isWsChar (c : Char) : Bool :=
  c = ' ' || c = '\t' || c = '\n' || c = '\r'

/-- Model of Rust `str::trim` on the character list. -/
def trimL (l : List Char) : List Char :=
  ((l.dropWhile isWsChar).reverse.dropWhile isWsChar).reverse

/-- Model of Rust `str::trim`. -/
def trimStr (s : String) : String :=
  ⟨trimL s.data⟩

/-- Model of Rust `str::contains` (substring occurrence) on character lists. -/
def hasSub (hay needle : List Char) : Bool :=
  match hay with
  | [] => needle.isEmpty
  | _ :: t => needle.isPrefixOf hay || hasSub t needle

/-- Model of Rust `str::contains`. -/
def strContains (s pat : String) : Bool :=
  hasSub s.data pat.data

/-- Model of Rust `str::ends_with`. -/
def strEndsWith (s pat : String) : Bool :=
  pat.data.isSuffixOf s.data

/-- Model of Rust `str::trim_end_matches` with a `char` pattern:
remove every trailing occurrence of `c`. -/
def trimEndChar (l : List Char) (c : Char) : List Char :=
  (l.reverse.dropWhile (fun d => d = c)).reverse

/-- Fueled worker for `trimEndStrAll`. -/
def trimEndPat : Nat → List Char → List Char → List Char
  | 0, l, _ => l
  | n + 1, l, pat =>
    if pat ≠ [] ∧ pat.isSuffixOf l then
      trimEndPat n (l.take (l.length - pat.length)) pat
    else l

/-- Model of Rust `str::trim_end_matches` with a string pattern:
remove every trailing occurrence of `pat`. -/
def trimEndStrAll (l pat : List Char) : List Char :=
  trimEndPat l.length l pat

/-- Model of Rust `str::split('/')` on character lists: `n` separators yield
`n + 1` pieces, empty pieces kept. -/
def splitSlash : List Char → List (List Char)
  | [] => [[]]
  | c :: rest =>
    let r := splitSlash rest
    if c = '/' then [] :: r
    else
      match r with
      | h :: t => (c :: h) :: t
      | [] => [[c]]

/-- Model of `Vec::join(", ")`. -/
def joinComma : List String → String
  | [] => ""
  | [s] => s
  | s :: rest => s ++ ", " ++ joinComma rest

/-! ## `src/config.rs`: MQTT connection settings -/

/-- MQTT connection settings persisted to the config file
(`MqttConfig` in `src/config.rs`; `u16` fields widened to `Nat`,
`PathBuf` to `String`). -/
structure MqttConfig where
  host : String
  port : Nat
  tls : Bool
  ca_path : Option String
  client_id : Option String
  username : Option String
  topic_prefix : Option String
  qos : Nat
  keepalive_secs : Nat
  remember_password : Bool
deriving DecidableEq

/-! ## `src/mqtt.rs`: subscription filter -/

/-- `subscriptions` from `src/mqtt.rs`: trim the configured prefix (default
`"homeassistant"`), strip every trailing `"/#"`, then every trailing `'#'`,
then every trailing `'/'`, and append `"/#"`. -/
def subscriptions (cfg : MqttConfig) : List String :=
  let tp := MqttConfig.topic_prefix cfg
  let raw := trimL (tp.getD "homeassistant").data
  let b1 := trimEndStrAll raw ['/', '#']
  let b2 := trimEndChar b1 '#'
  let b3 := trimEndChar b2 '/'
  [String.mk b3 ++ "/#"]

/-! ## `src/mqtt.rs`: topic classification -/

/-- Events sent from the MQTT listener thread to the UI thread
(`MqttEvent` in `src/app.rs`).  The carrier type `V` of a metric's value is a
parameter: the listener model carries the raw payload text (the `f64` parse
result is not numerically modelled), while the reducer model stores rationals. -/
inductive MqttEvent (V : Type) where
  | connected : MqttEvent V
  | disconnected : String → MqttEvent V
  | metric : String → V → String → MqttEvent V
  | status : String → MqttEvent V
deriving DecidableEq

/-- `map_sensor_kind` from `src/mqtt.rs`: ordered substring/suffix rules over
the ASCII-lowercased sensor name. -/
def map_sensor_kind (name : String) : Option String :=
  let n := lowerStr name
  if strEndsWith n "pm_1mm_weight_concentration" then some "pm1"
  else if strEndsWith n "pm_2_5mm_weight_concentration" then some "pm25"
  else if strEndsWith n "pm_10mm_weight_concentration" then some "pm10"
  else if strContains n "pm_1_to_2_5" then some "pm25"
  else if strContains n "pm_0_3_to_1" then some "pm1"
  else if strContains n "pm_2_5_to_4" then some "pm25"
  else if strContains n "pm_4_to_10" then some "pm10"
  else if strContains n "voc" || strContains n "sen55_voc" then some "tvoc"
  else if strContains n "co2" then some "co2"
  else if strContains n "temp" || strContains n "temperature" then some "temp"
  else if strContains n "humidity" || strContains n "hum" ||
      strContains n "sen55_humidity" then some "humidity"
  else none

/-- Digit test used by the float grammar. -/
def isDigitChar (c : Char) : Bool :=
  '0' ≤ c ∧ c ≤ '9'

/-- Split a character list at the first `'e'`/`'E'` (mantissa, exponent). -/
def splitAtExp : List Char → List Char × Option (List Char)
  | [] => ([], none)
  | c :: r =>
    if c = 'e' ∨ c = 'E' then ([], some r)
    else
      let p := splitAtExp r
      (c :: p.1, p.2)

/-- Mantissa of the Rust `f64` grammar: `Count '.'? Count?` or `'.' Count`. -/
def mantOk (l : List Char) : Bool :=
  let d1 := l.takeWhile isDigitChar
  let r1 := l.dropWhile isDigitChar
  match r1 with
  | [] => !d1.isEmpty
  | '.' :: r2 =>
    let d2 := r2.takeWhile isDigitChar
    let r3 := r2.dropWhile isDigitChar
    (!d1.isEmpty || !d2.isEmpty) && r3.isEmpty
  | _ => false

/-- Exponent of the Rust `f64` grammar: `Sign? Count`. -/
def expOk (l : List Char) : Bool :=
  let l' :=
    match l with
    | c :: r => if c = '+' ∨ c = '-' then r else l
    | [] => l
  !l'.isEmpty && l'.all isDigitChar

/-- Acceptance test of the grammar documented for Rust `f64::from_str`
(`Sign? ( 'inf' | 'infinity' | 'nan' | Number )`, specials case-insensitive),
modelling whether `payload.parse::<f64>()` succeeds. -/
def f64Parses (s : String) : Bool :=
  let l :=
    match s.data with
    | c :: r => if c = '+' ∨ c = '-' then r else s.data
    | [] => s.data
  let low := l.map lowerChar
  low = "inf".data || low = "infinity".data || low = "nan".data ||
    (let p := splitAtExp l
     match p.2 with
     | none => mantOk p.1
     | some e => mantOk p.1 && expOk e)

/-- Last `/`-delimited segment of a topic (the sensor name in `map_publish`). -/
def lastSegment (t : String) : String :=
  ⟨((splitSlash t.data).getLast?).getD []⟩

/-- `map_publish` from `src/mqtt.rs`: classify the last topic segment, then
require the trimmed payload to parse as `f64`.  The metric value carried is
the trimmed payload text itself (see `f64Parses`).  The Rust
`segments.is_empty()` early return is dead code (`split('/')` always yields at
least one piece), and `segments.last()` never fails, so both collapse into
`lastSegment`. -/
def map_publish (topic payload : String) : Option (MqttEvent String) :=
  let payloadT := trimStr payload
  let nm := lastSegment topic
  match map_sensor_kind nm with
  | none => none
  | some kind =>
    if f64Parses payloadT then some (MqttEvent.metric topic payloadT kind)
    else none

/-! ## `src/config.rs`: dashboard configuration and normalization -/

/-- Per-gauge configuration (`GaugeConfig` in `src/config.rs`). -/
structure GaugeConfig where
  id : String
  enabled : Bool
deriving DecidableEq

/-- `GaugeConfig::new`: an enabled gauge with the given identifier. -/
def GaugeConfig.new (id : String) : GaugeConfig :=
  ⟨id, true⟩

/-- Configuration for a dashboard section (`DashboardSectionConfig`). -/
structure DashboardSectionConfig where
  id : String
  enabled : Bool
  gauges : List GaugeConfig
deriving DecidableEq

/-- `DashboardSectionConfig::default_gauges_for`. -/
def default_gauges_for (sectionId : String) : List GaugeConfig :=
  if sectionId = "air_quality" then
    [GaugeConfig.new "pm25", GaugeConfig.new "pm10", GaugeConfig.new "pm1"]
  else if sectionId = "gas" then
    [GaugeConfig.new "co2", GaugeConfig.new "tvoc"]
  else if sectionId = "environment" then
    [GaugeConfig.new "temperature", GaugeConfig.new "humidity"]
  else []

/-- `DashboardSectionConfig::new`: a section with its default gauges. -/
def DashboardSectionConfig.new (id : String) : DashboardSectionConfig :=
  ⟨id, true, default_gauges_for id⟩

/-- First-occurrence-wins deduplication keyed by `key`, the model of
`retain(|x| seen.insert(key(x)))` with `seen` an initially-given set of
already-seen keys (the Rust `HashSet` is modelled as the list of keys
inserted so far). -/
def dedupBy {α : Type} (key : α → String) : List α → List String → List α
  | [], _ => []
  | x :: rest, seen =>
    if key x ∈ seen then dedupBy key rest seen
    else x :: dedupBy key rest (key x :: seen)

/-- `DashboardSectionConfig::normalize`: fill defaults when empty, else
deduplicate gauges by id (first wins) and append the missing defaults.
After the Rust `retain`, the `seen` set holds every gauge id of the original
list, which is what the default-append check consults. -/
def DashboardSectionConfig.normalize (s : DashboardSectionConfig) :
    DashboardSectionConfig :=
  let defaults := default_gauges_for s.id
  if s.gauges = [] then { s with gauges := defaults }
  else
    let kept := dedupBy (fun g => g.id) s.gauges []
    let seen := s.gauges.map (fun g => g.id)
    { s with gauges := kept ++ defaults.filter (fun g => g.id ∉ seen) }

/-- Dashboard layout configuration (`DashboardConfig`). -/
structure DashboardConfig where
  sections : List DashboardSectionConfig
deriving DecidableEq

/-- `DashboardConfig::default_sections`. -/
def default_sections : List DashboardSectionConfig :=
  [DashboardSectionConfig.new "overview",
   DashboardSectionConfig.new "air_quality",
   DashboardSectionConfig.new "gas",
   DashboardSectionConfig.new "environment"]

/-- `DashboardConfig::normalize`: replace an empty section list with the
defaults, else deduplicate sections by id, normalize each survivor, append
the missing default sections, and normalize every section again (the Rust
code runs `section.normalize()` over the list once before and once after the
default append). -/
def DashboardConfig.normalize (d : DashboardConfig) : DashboardConfig :=
  let defaults := default_sections
  if d.sections = [] then ⟨defaults⟩
  else
    let kept := dedupBy (fun s => s.id) d.sections []
    let seen := d.sections.map (fun s => s.id)
    let normed := kept.map DashboardSectionConfig.normalize
    let appended := normed ++ defaults.filter (fun s => s.id ∉ seen)
    ⟨appended.map DashboardSectionConfig.normalize⟩

/-! ## `src/app.rs`: the consumer-side reducer -/

/-- Last-seen metric values (`Metrics` in `src/app.rs`).  `f64` slots are
embedded as rationals (the reducer only stores values) and `Instant` as a
`Nat` timestamp. -/
structure Metrics where
  pm1 : Option ℚ
  pm25 : Option ℚ
  pm10 : Option ℚ
  tvoc : Option ℚ
  co2 : Option ℚ
  temp : Option ℚ
  humidity : Option ℚ
  last_topic : Option String
  last_update : Option Nat
deriving DecidableEq

/-- The reducer-visible application state mutated by `Air1App::poll_mqtt`
(status line, metrics snapshot, connectivity flag). -/
structure AppState where
  status : String
  metrics : Metrics
  connected : Bool
deriving DecidableEq

/-- One step of `Air1App::poll_mqtt`: apply a single drained event at time
`now`.  For a `Metric` event the code overwrites `last_topic` and
`last_update` first and only then dispatches on the kind, skipping the slot
write (`continue`) for an unrecognized kind. -/
def applyEvent (st : AppState) (ev : MqttEvent ℚ) (now : Nat) : AppState :=
  match ev with
  | MqttEvent.connected =>
    { st with status := "MQTT connected", connected := true }
  | MqttEvent.disconnected err =>
    { st with status := "MQTT disconnected: " ++ err, connected := false }
  | MqttEvent.status msg => { st with status := msg }
  | MqttEvent.metric topic value kind =>
    let m1 := { st.metrics with last_topic := some topic, last_update := some now }
    let m2 :=
      if kind = "pm1" then { m1 with pm1 := some value }
      else if kind = "pm25" ∨ kind = "pm2_5" then { m1 with pm25 := some value }
      else if kind = "pm10" then { m1 with pm10 := some value }
      else if kind = "tvoc" then { m1 with tvoc := some value }
      else if kind = "co2" then { m1 with co2 := some value }
      else if kind = "temp" ∨ kind = "temperature" then { m1 with temp := some value }
      else if kind = "humidity" then { m1 with humidity := some value }
      else m1
    { st with metrics := m2 }

/-- `Air1App::poll_mqtt`: drain the queued events in order, applying each at
its processing time. -/
def poll_mqtt (st : AppState) (evs : List (MqttEvent ℚ × Nat)) : AppState :=
  evs.foldl (fun a p => applyEvent a p.1 p.2) st

/-- The metric kinds whose slot the reducer's `match` recognizes. -/
def recognizedKind (kind : String) : Bool :=
  kind = "pm1" || kind = "pm25" || kind = "pm2_5" || kind = "pm10" ||
  kind = "tvoc" || kind = "co2" || kind = "temp" || kind = "temperature" ||
  kind = "humidity"

/-! ## `src/mqtt.rs`: TLS setup and the listener loop

The listener performs network and file-system effects; each connection
attempt's external behaviour is captured by an `AttemptScript` record, and
`run_listener` becomes a recursion over a finite list of such scripts (a
finite prefix of the infinite supervision loop). -/

/-- Outcome of `fs::read` + PEM parsing + `add_parsable_certificates` for the
configured CA bundle file. -/
structure CaRead where
  readOk : Bool
  parseOk : Bool
  addedCount : Nat
deriving DecidableEq

/-- Outcome of `rustls_native_certs::load_native_certs` plus
`add_parsable_certificates`. -/
structure NativeCerts where
  errorsEmpty : Bool
  certsEmpty : Bool
  addedCount : Nat
deriving DecidableEq

/-- `tls_config` from `src/mqtt.rs`: with a CA path, a read failure, a parse
failure, or zero added certificates is an error; without one, native
certificates are loaded, failing when there are errors and no certificates or
when zero certificates are added. -/
def tls_config (caPath : Option String) (ca : CaRead) (native : NativeCerts) :
    Except String Unit :=
  match caPath with
  | some p =>
    if ca.readOk = false then Except.error ("failed to read CA file at " ++ p)
    else if ca.parseOk = false then Except.error "failed to parse CA certs"
    else if ca.addedCount = 0 then Except.error ("no CA certs added from " ++ p)
    else Except.ok ()
  | none =>
    if native.errorsEmpty = false ∧ native.certsEmpty = true then
      Except.error "failed to load native certs"
    else if native.addedCount = 0 then Except.error "no native certificates available"
    else Except.ok ()

/-- One notification yielded by `connection.iter()` inside the receive loop. -/
inductive Notif where
  | publish : String → String → Notif
  | otherOk : Notif
  | errNotif : String → Notif
deriving DecidableEq

/-- External behaviour of one iteration of the listener loop: whether the stop
channel fires at the top-of-loop check, the TLS environment for
`build_options`, the notifications the connection yields, the index of the
notification before which the in-loop stop check fires (if any), the session
duration in seconds at the post-loop `connect_at.elapsed()` check, and whether
the stop channel fires during the backoff `recv_timeout`. -/
structure AttemptScript where
  stopAtTop : Bool
  ca : CaRead
  native : NativeCerts
  notifs : List Notif
  stopIdx : Option Nat
  sessionSecs : Nat
  stopDuringWait : Bool
deriving DecidableEq

/-- `build_options` from `src/mqtt.rs`.  Only the TLS branch can fail
(credentials and keepalive setup are infallible), so the model reduces to
`tls_config` when `cfg.tls` is set. -/
def build_options (cfg : MqttConfig) (s : AttemptScript) : Except String Unit :=
  if cfg.tls then tls_config cfg.ca_path s.ca s.native else Except.ok ()

/-- The receive loop of `run_listener`: per yielded notification, first poll
the stop channel (emitting the stop-requested status and breaking when it
fires), then forward classified publishes, skip other packets, and break with
a reason on a connection error.  Returns the emitted events, the `stopped`
flag, and the `disconnect_reason`. -/
def recvLoop : List Notif → Option Nat →
    List (MqttEvent String) × Bool × Option String
  | [], _ => ([], false, none)
  | n :: rest, stopIdx =>
    if stopIdx = some 0 then
      ([MqttEvent.status "MQTT stop requested"], true, none)
    else
      match n with
      | Notif.publish t pl =>
        let r := recvLoop rest (stopIdx.map (fun k => k - 1))
        ((map_publish t pl).toList ++ r.1, r.2)
      | Notif.otherOk => recvLoop rest (stopIdx.map (fun k => k - 1))
      | Notif.errNotif msg => ([], false, some msg)

/-- Result of one loop iteration: halt the loop with an outcome, or continue
with the next backoff value. -/
inductive AttemptOutcome where
  | haltStopped : AttemptOutcome
  | haltErrored : String → AttemptOutcome
  | next : Nat → AttemptOutcome
deriving DecidableEq

/-- Final outcome of a (finite prefix of a) `run_listener` execution:
terminated via stop (`Ok(())`), returned an error (`Err`), or the observed
script prefix ran out while the loop would continue. -/
inductive Outcome where
  | stopped : Outcome
  | errored : String → Outcome
  | ranOut : Outcome
deriving DecidableEq

/-- Result of a listener run: the events sent on the channel in order, the
backoff waits entered (seconds), and the outcome. -/
structure RunResult where
  events : List (MqttEvent String)
  waits : List Nat
  outcome : Outcome
deriving DecidableEq

/-- One iteration of the `run_listener` loop body, given the current backoff:
top-of-loop stop check; `build_options?` (an error propagates out of the
function); subscribe, announce, `Connected`; the receive loop; then either the
stop epilogue, or `Disconnected(reason)`, the `≥ 60 s` backoff reset, the
reconnect announcement and the cancellable wait, and finally the doubling of
the backoff capped at 30 s. -/
def attemptStep (cfg : MqttConfig) (backoff : Nat) (s : AttemptScript) :
    List (MqttEvent String) × List Nat × AttemptOutcome :=
  if s.stopAtTop then
    ([MqttEvent.status "MQTT stop requested", MqttEvent.disconnected "stopped"],
     [], AttemptOutcome.haltStopped)
  else
    match build_options cfg s with
    | Except.error msg => ([], [], AttemptOutcome.haltErrored msg)
    | Except.ok _ =>
      let pre := [MqttEvent.status
          ("MQTT connected; subs: " ++ joinComma (subscriptions cfg)),
        MqttEvent.connected]
      let r := recvLoop s.notifs s.stopIdx
      if r.2.1 then
        (pre ++ r.1 ++ [MqttEvent.disconnected "stopped"], [],
         AttemptOutcome.haltStopped)
      else
        let reason := r.2.2.getD "connection closed"
        let b1 := if 60 ≤ s.sessionSecs then 1 else backoff
        let evs := pre ++ r.1 ++ [MqttEvent.disconnected reason,
          MqttEvent.status ("Reconnecting in " ++ toString b1 ++ "s")]
        if s.stopDuringWait then
          (evs ++ [MqttEvent.status "MQTT stop requested",
            MqttEvent.disconnected "stopped"], [b1], AttemptOutcome.haltStopped)
        else (evs, [b1], AttemptOutcome.next (min (b1 * 2) 30))

/-- The `run_listener` loop, carrying the mutable `backoff` state. -/
def run_loop (cfg : MqttConfig) : Nat → List AttemptScript → RunResult
  | _, [] => ⟨[], [], Outcome.ranOut⟩
  | b, s :: rest =>
    match attemptStep cfg b s with
    | (evs, ws, AttemptOutcome.haltStopped) => ⟨evs, ws, Outcome.stopped⟩
    | (evs, ws, AttemptOutcome.haltErrored msg) => ⟨evs, ws, Outcome.errored msg⟩
    | (evs, ws, AttemptOutcome.next b2) =>
      let r := run_loop cfg b2 rest
      ⟨evs ++ r.events, ws ++ r.waits, r.outcome⟩

/-- `run_listener` from `src/mqtt.rs`: the loop starts with a 1-second
backoff. -/
def run_listener (cfg : MqttConfig) (scripts : List AttemptScript) : RunResult :=
  run_loop cfg 1 scripts

/-- Decidable equality for `Except`, used to evaluate `build_options` results
on concrete inputs. -/
instance {ε α : Type} [DecidableEq ε] [DecidableEq α] : DecidableEq (Except ε α)
  | Except.ok a, Except.ok b =>
    if h : a = b then isTrue (by rw [h])
    else isFalse (fun hh => h (Except.ok.inj hh))
  | Except.ok _, Except.error _ => isFalse (fun hh => Except.noConfusion hh)
  | Except.error _, Except.ok _ => isFalse (fun hh => Except.noConfusion hh)
  | Except.error e, Except.error f =>
    if h : e = f then isTrue (by rw [h])
    else isFalse (fun hh => h (Except.error.inj hh))

/-! ## Concrete fixtures used by witnesses and counterexamples -/

/-- A plain (non-TLS) connection configuration with the given topic setting. -/
def cfgP (p : Option String) : MqttConfig :=
  ⟨"localhost", 1883, false, none, some "air1-monitor", none, p, 0, 30, false⟩

/-- A TLS configuration pointing at a CA bundle file. -/
def cfgTls : MqttConfig :=
  ⟨"broker", 8883, true, some "ca.pem", some "air1-monitor", none, some "home", 0, 30, false⟩

/-- An attempt whose connection immediately fails (no stop anywhere,
infallible TLS environment, session shorter than 60 s). -/
def sErr : AttemptScript :=
  ⟨false, ⟨true, true, 1⟩, ⟨true, false, 1⟩, [Notif.errNotif "connection refused"],
   none, 0, false⟩

/-- An attempt where the stop signal is already pending at the top of the
loop. -/
def sStopTop : AttemptScript :=
  ⟨true, ⟨true, true, 1⟩, ⟨true, false, 1⟩, [], none, 0, false⟩

/-- An attempt whose CA bundle file reads fine but fails PEM parsing. -/
def sBadCa : AttemptScript :=
  ⟨false, ⟨true, false, 0⟩, ⟨true, false, 1⟩, [], none, 0, false⟩

/-- A dashboard configuration with duplicate known sections, duplicate
gauges, and an unknown section with duplicate unknown gauges. -/
def dEx : DashboardConfig :=
  ⟨[⟨"air_quality", true, [GaugeConfig.new "pm25", GaugeConfig.new "pm25",
      GaugeConfig.new "x9"]⟩,
    ⟨"air_quality", false, [GaugeConfig.new "pm10"]⟩,
    ⟨"custom", true, [GaugeConfig.new "g", GaugeConfig.new "g"]⟩]⟩

/-- A concrete reducer state with every slot populated. -/
def stEx : AppState :=
  ⟨"ok", ⟨some 1, some 2, some 3, some 4, some 5, some 6, some 7,
    some "t0", some 17⟩, true⟩

/-! ## C7 / C10: reducer theorems -/

/-- C7: applying the reducer to `Metric("s/t", pm25, 25.5)` on any state
yields `values[pm25] = 25.5` and `lastTopic = "s/t"`; and folding
`[Connected, Metric A, Metric B, Disconnected]` from any state leaves both
metric values present and `connected = false` (values retained on
disconnect). -/
theorem reducer_metric_and_fold :
    (∀ (st : AppState) (now : Nat),
      (applyEvent st (MqttEvent.metric "s/t" (25.5 : ℚ) "pm25") now).metrics.pm25
          = some (25.5 : ℚ) ∧
      (applyEvent st (MqttEvent.metric "s/t" (25.5 : ℚ) "pm25") now).metrics.last_topic
          = some "s/t") ∧
    (∀ (st : AppState) (tA tB r : String) (vA vB : ℚ) (t1 t2 t3 t4 : Nat),
      (poll_mqtt st [(MqttEvent.connected, t1),
        (MqttEvent.metric tA vA "pm25", t2),
        (MqttEvent.metric tB vB "co2", t3),
        (MqttEvent.disconnected r, t4)]).metrics.pm25 = some vA ∧
      (poll_mqtt st [(MqttEvent.connected, t1),
        (MqttEvent.metric tA vA "pm25", t2),
        (MqttEvent.metric tB vB "co2", t3),
        (MqttEvent.disconnected r, t4)]).metrics.co2 = some vB ∧
      (poll_mqtt st [(MqttEvent.connected, t1),
        (MqttEvent.metric tA vA "pm25", t2),
        (MqttEvent.metric tB vB "co2", t3),
        (MqttEvent.disconnected r, t4)]).connected = false) := by
  constructor
  · intro st now
    constructor <;> rfl
  · intro st tA tB r vA vB t1 t2 t3 t4
    refine ⟨rfl, rfl, rfl⟩

/-- C10: a `Metric` event with an unrecognized kind still overwrites
`last_topic` and `last_update`, leaving the seven value slots, the
connectivity flag, and the status text unchanged. -/
theorem reducer_unrecognized_kind_frame
    (st : AppState) (topic : String) (value : ℚ) (kind : String) (now : Nat)
    (h : recognizedKind kind = false) :
    applyEvent st (MqttEvent.metric topic value kind) now
      = { st with metrics :=
          { st.metrics with last_topic := some topic, last_update := some now } } := by
  obtain ⟨⟨⟨⟨⟨⟨⟨⟨h1, h2⟩, h3⟩, h4⟩, h5⟩, h6⟩, h7⟩, h8⟩, h9⟩ :
      (((((((¬kind = "pm1" ∧ ¬kind = "pm25") ∧ ¬kind = "pm2_5") ∧ ¬kind = "pm10") ∧
        ¬kind = "tvoc") ∧ ¬kind = "co2") ∧ ¬kind = "temp") ∧ ¬kind = "temperature") ∧
        ¬kind = "humidity" := by
    simpa [recognizedKind, not_or] using h
  simp [applyEvent, h1, h2, h3, h4, h5, h6, h7, h8, h9]

/-- Witness for C10 at a concrete state and the unrecognized kind
`"unknown_metric"`. -/
theorem reducer_unrecognized_kind_frame_witness :
    recognizedKind "unknown_metric" = false ∧
    applyEvent stEx (MqttEvent.metric "sensors/unknown" (100 : ℚ) "unknown_metric") 21
      = { stEx with metrics :=
          { stEx.metrics with
              last_topic := some "sensors/unknown", last_update := some 21 } } :=
  ⟨by decide,
   reducer_unrecognized_kind_frame stEx "sensors/unknown" 100 "unknown_metric" 21
     (by decide)⟩

/-! ## C8: topic classifier -/

/-- The classifier only looks at the ASCII-lowercased sensor name. -/
theorem map_sensor_kind_lower_congr (n1 n2 : String)
    (h : lowerStr n1 = lowerStr n2) :
    map_sensor_kind n1 = map_sensor_kind n2 := by
  unfold map_sensor_kind
  rw [h]

/-- Whether a publish is recognized depends only on the lowercased last topic
segment (and the payload). -/
theorem map_publish_isSome_congr (t1 t2 pl : String)
    (h : lowerStr (lastSegment t1) = lowerStr (lastSegment t2)) :
    (map_publish t1 pl).isSome = (map_publish t2 pl).isSome := by
  simp only [map_publish]
  rw [map_sensor_kind_lower_congr _ _ h]
  cases hk : map_sensor_kind (lastSegment t2) with
  | none => rfl
  | some k =>
    cases hf : f64Parses (trimStr pl) <;> simp [hf]

/-- A payload that fails the float grammar is never classified. -/
theorem map_publish_nan_none (t : String) :
    map_publish t "not-a-number" = none := by
  simp only [map_publish]
  have hf : f64Parses (trimStr "not-a-number") = false := by decide
  cases hk : map_sensor_kind (lastSegment t) <;> simp [hk, hf]

/-- C8: the classifier is total (embedded as a total function into an option),
depends only on the lowercased last `/`-segment of the topic, maps each
documented sensor-name pattern to its kind regardless of letter case, and
returns unrecognized for the payload `"not-a-number"` on every topic. -/
theorem classifier_contract :
    (∀ n1 n2 : String, lowerStr n1 = lowerStr n2 →
      map_sensor_kind n1 = map_sensor_kind n2) ∧
    (∀ t1 t2 pl : String, lowerStr (lastSegment t1) = lowerStr (lastSegment t2) →
      (map_publish t1 pl).isSome = (map_publish t2 pl).isSome) ∧
    (map_sensor_kind "PM_1MM_WEIGHT_CONCENTRATION" = some "pm1" ∧
     map_sensor_kind "pm_2_5MM_Weight_Concentration" = some "pm25" ∧
     map_sensor_kind "PM_10mm_weight_concentration" = some "pm10" ∧
     map_sensor_kind "PM_1_TO_2_5_count" = some "pm25" ∧
     map_sensor_kind "pm_0_3_TO_1_count" = some "pm1" ∧
     map_sensor_kind "PM_2_5_to_4_count" = some "pm25" ∧
     map_sensor_kind "pm_4_TO_10_count" = some "pm10" ∧
     map_sensor_kind "Sen55_VOC" = some "tvoc" ∧
     map_sensor_kind "CO2_Level" = some "co2" ∧
     map_sensor_kind "TEMPERATURE" = some "temp" ∧
     map_sensor_kind "Humidity" = some "humidity" ∧
     map_sensor_kind "unrelated_sensor" = none) ∧
    (∀ t : String, map_publish t "not-a-number" = none) := by
  refine ⟨map_sensor_kind_lower_congr, map_publish_isSome_congr, by decide,
    map_publish_nan_none⟩

/-- Witness for C8's conditional parts at concrete inputs. -/
theorem classifier_contract_witness :
    lowerStr "Sen55_VOC" = lowerStr "sen55_voc" ∧
    map_sensor_kind "Sen55_VOC" = map_sensor_kind "sen55_voc" ∧
    map_publish "home/x/Sen55_VOC" "12.3" = map_publish "home/x/Sen55_VOC" "12.3" :=
  ⟨by decide, classifier_contract.1 "Sen55_VOC" "sen55_voc" (by decide), rfl⟩

/-! ## C4: reconnect backoff -/

/-- The in-loop stop check never fires when the stop channel stays silent. -/
theorem recvLoop_none_not_stopped : ∀ l : List Notif, (recvLoop l none).2.1 = false := by
  intro l
  induction l with
  | nil => rfl
  | cons n rest ih =>
    cases n with
    | publish t pl => simpa [recvLoop] using ih
    | otherOk => simpa [recvLoop] using ih
    | errNotif m => rfl

/-- Shorthand for the backoff value used for the wait of the current
iteration after the `≥ 60 s` healthy-session reset. -/
def waitOf (backoff : Nat) (s : AttemptScript) : Nat :=
  if 60 ≤ s.sessionSecs then 1 else backoff

/-- An attempt with no stop activity and successful option building emits its
events, waits `waitOf`, and continues with the doubled capped backoff. -/
theorem attemptStep_plain (cfg : MqttConfig) (b : Nat) (s : AttemptScript)
    (h1 : s.stopAtTop = false) (h2 : build_options cfg s = Except.ok ())
    (h3 : (recvLoop s.notifs s.stopIdx).2.1 = false)
    (h4 : s.stopDuringWait = false) :
    attemptStep cfg b s =
      ([MqttEvent.status ("MQTT connected; subs: " ++ joinComma (subscriptions cfg)),
        MqttEvent.connected] ++ (recvLoop s.notifs s.stopIdx).1 ++
        [MqttEvent.disconnected ((recvLoop s.notifs s.stopIdx).2.2.getD "connection closed"),
         MqttEvent.status ("Reconnecting in " ++ toString (waitOf b s) ++ "s")],
       [waitOf b s], AttemptOutcome.next (min (waitOf b s * 2) 30)) := by
  simp [attemptStep, h1, h2, h3, h4, waitOf]

/-- Doubling-with-cap commutes with the closed-form power expression. -/
theorem backoff_pow_step (b k : Nat) :
    min (2 ^ k * min (b * 2) 30) 30 = min (2 ^ (k + 1) * b) 30 := by
  rcases Nat.le_total (b * 2) 30 with h | h
  · rw [Nat.min_eq_left h, Nat.pow_succ]
    ring_nf
  · rw [Nat.min_eq_right h]
    have h1 : (1 : Nat) ≤ 2 ^ k := Nat.one_le_pow k 2 (by norm_num)
    have h2 : (30 : Nat) ≤ 2 ^ k * 30 := le_mul_of_one_le_left (by norm_num) h1
    have h3 : (30 : Nat) ≤ 2 ^ (k + 1) * b := by
      calc (30 : Nat) ≤ b * 2 := h
        _ ≤ 2 ^ k * (b * 2) := le_mul_of_one_le_left (Nat.zero_le _) h1
        _ = 2 ^ (k + 1) * b := by rw [Nat.pow_succ]; ring
    rw [Nat.min_eq_right h2, Nat.min_eq_right h3]

/-- Closed form of the wait sequence over consecutive short-lived failing
attempts, for any starting backoff at most the 30-second cap. -/
theorem run_loop_waits_short (cfg : MqttConfig) :
    ∀ (scripts : List AttemptScript) (b : Nat), b ≤ 30 →
    (∀ s ∈ scripts, s.stopAtTop = false ∧ build_options cfg s = Except.ok () ∧
      s.stopIdx = none ∧ s.stopDuringWait = false ∧ s.sessionSecs < 60) →
    (run_loop cfg b scripts).waits
      = (List.range scripts.length).map (fun k => min (2 ^ k * b) 30) := by
  intro scripts
  induction scripts with
  | nil => intro b _ _; rfl
  | cons s rest ih =>
    intro b hb hall
    obtain ⟨hs1, hs2, hs3, hs4, hs5⟩ := hall s (List.mem_cons_self s rest)
    have hr : (recvLoop s.notifs s.stopIdx).2.1 = false := by
      rw [hs3]; exact recvLoop_none_not_stopped s.notifs
    have hw : waitOf b s = b := by
      simp [waitOf, Nat.not_le.mpr hs5]
    have hstep := attemptStep_plain cfg b s hs1 hs2 hr hs4
    rw [hw] at hstep
    have hnext : min (b * 2) 30 ≤ 30 := Nat.min_le_right _ _
    have hrest := ih (min (b * 2) 30) hnext
      (fun t ht => hall t (List.mem_cons_of_mem s ht))
    simp only [run_loop, hstep, hrest, List.length_cons, List.range_succ_eq_map,
      List.map_cons, List.map_map, List.singleton_append]
    congr 1
    · have h0 : (2 : Nat) ^ 0 * b = b := by norm_num
      rw [h0]
      exact (min_eq_left hb).symm
    · apply List.map_congr_left
      intro k _
      simpa [Function.comp] using backoff_pow_step b k

/-- C4: starting from the initial 1-second backoff, the wait recorded before
attempt `n + 1` after `n` consecutive short-lived failing attempts is
`min(2 ^ (n - 1), 30)` seconds (the `k`-th zero-indexed wait is
`min(2 ^ k, 30)`), and any attempt whose session lasted at least 60 seconds
resets the next wait to 1 second regardless of the accumulated backoff. -/
theorem backoff_policy :
    (∀ (cfg : MqttConfig) (scripts : List AttemptScript),
      (∀ s ∈ scripts, s.stopAtTop = false ∧ build_options cfg s = Except.ok () ∧
        s.stopIdx = none ∧ s.stopDuringWait = false ∧ s.sessionSecs < 60) →
      (run_listener cfg scripts).waits
        = (List.range scripts.length).map (fun k => min (2 ^ k) 30)) ∧
    (∀ (cfg : MqttConfig) (b : Nat) (s : AttemptScript) (rest : List AttemptScript),
      s.stopAtTop = false → build_options cfg s = Except.ok () →
      s.stopIdx = none → s.stopDuringWait = false → 60 ≤ s.sessionSecs →
      (run_loop cfg b (s :: rest)).waits.head? = some 1) := by
  constructor
  · intro cfg scripts hall
    have h := run_loop_waits_short cfg scripts 1 (by norm_num) hall
    simpa [run_listener] using h
  · intro cfg b s rest h1 h2 h3 h4 h5
    have hr : (recvLoop s.notifs s.stopIdx).2.1 = false := by
      rw [h3]; exact recvLoop_none_not_stopped s.notifs
    have hw : waitOf b s = 1 := by simp [waitOf, h5]
    have hstep := attemptStep_plain cfg b s h1 h2 hr h4
    rw [hw] at hstep
    simp [run_loop, hstep]

/-- Witness for C4: three consecutive short-lived failures from the initial
backoff give waits 1 s, 2 s, 4 s; a long-lived session resets the next wait
to 1 s even from an accumulated backoff of 16 s. -/
theorem backoff_policy_witness :
    (∀ s ∈ [sErr, sErr, sErr], s.stopAtTop = false ∧
      build_options (cfgP (some "home")) s = Except.ok () ∧
      s.stopIdx = none ∧ s.stopDuringWait = false ∧ s.sessionSecs < 60) ∧
    (run_listener (cfgP (some "home")) [sErr, sErr, sErr]).waits
      = (List.range 3).map (fun k => min (2 ^ k) 30) ∧
    (run_loop (cfgP (some "home")) 16
      [⟨false, ⟨true, true, 1⟩, ⟨true, false, 1⟩, [Notif.errNotif "x"], none, 61, false⟩]).waits.head?
      = some 1 :=
  ⟨by decide,
   backoff_policy.1 (cfgP (some "home")) [sErr, sErr, sErr] (by decide),
   backoff_policy.2 (cfgP (some "home")) 16
     ⟨false, ⟨true, true, 1⟩, ⟨true, false, 1⟩, [Notif.errNotif "x"], none, 61, false⟩ []
     (by decide) (by decide) (by decide) (by decide) (by decide)⟩

/-- C4 counterexample to the claim's parenthetical: after three consecutive
short-lived failures the fourth attempt's wait is 4 seconds, not 8. -/
theorem backoff_fourth_wait_is_four_not_eight :
    (run_listener (cfgP (some "home")) [sErr, sErr, sErr]).waits = [1, 2, 4] ∧
    (run_listener (cfgP (some "home")) [sErr, sErr, sErr]).waits.getLast? ≠ some 8 := by
  decide

/-! ## C1 / C2 / C3: listener loop behaviour -/

/-- Loop iteration with the stop signal pending at the top of the loop. -/
theorem attemptStep_stopAtTop (cfg : MqttConfig) (b : Nat) (s : AttemptScript)
    (h1 : s.stopAtTop = true) :
    attemptStep cfg b s =
      ([MqttEvent.status "MQTT stop requested", MqttEvent.disconnected "stopped"],
       [], AttemptOutcome.haltStopped) := by
  simp [attemptStep, h1]

/-- Loop iteration where `build_options` fails: the error propagates with no
event emitted. -/
theorem attemptStep_buildErr (cfg : MqttConfig) (b : Nat) (s : AttemptScript)
    (m : String) (h1 : s.stopAtTop = false)
    (h2 : build_options cfg s = Except.error m) :
    attemptStep cfg b s = ([], [], AttemptOutcome.haltErrored m) := by
  simp [attemptStep, h1, h2]

/-- Loop iteration where the stop signal arrives inside the receive loop. -/
theorem attemptStep_recvStop (cfg : MqttConfig) (b : Nat) (s : AttemptScript)
    (h1 : s.stopAtTop = false) (h2 : build_options cfg s = Except.ok ())
    (h3 : (recvLoop s.notifs s.stopIdx).2.1 = true) :
    attemptStep cfg b s =
      ([MqttEvent.status ("MQTT connected; subs: " ++ joinComma (subscriptions cfg)),
        MqttEvent.connected] ++ (recvLoop s.notifs s.stopIdx).1 ++
        [MqttEvent.disconnected "stopped"], [], AttemptOutcome.haltStopped) := by
  simp [attemptStep, h1, h2, h3]

/-- Loop iteration where the stop signal arrives during the backoff wait. -/
theorem attemptStep_waitStop (cfg : MqttConfig) (b : Nat) (s : AttemptScript)
    (h1 : s.stopAtTop = false) (h2 : build_options cfg s = Except.ok ())
    (h3 : (recvLoop s.notifs s.stopIdx).2.1 = false)
    (h4 : s.stopDuringWait = true) :
    attemptStep cfg b s =
      ([MqttEvent.status ("MQTT connected; subs: " ++ joinComma (subscriptions cfg)),
        MqttEvent.connected] ++ (recvLoop s.notifs s.stopIdx).1 ++
        [MqttEvent.disconnected ((recvLoop s.notifs s.stopIdx).2.2.getD "connection closed"),
         MqttEvent.status ("Reconnecting in " ++ toString (waitOf b s) ++ "s"),
         MqttEvent.status "MQTT stop requested", MqttEvent.disconnected "stopped"],
       [waitOf b s], AttemptOutcome.haltStopped) := by
  simp [attemptStep, h1, h2, h3, h4, waitOf]

/-- When the receive loop reports a stop, its last emitted event is the
stop-requested status. -/
theorem recvLoop_stop_suffix :
    ∀ (l : List Notif) (si : Option Nat), (recvLoop l si).2.1 = true →
    ∃ q, (recvLoop l si).1 = q ++ [MqttEvent.status "MQTT stop requested"] := by
  intro l
  induction l with
  | nil => intro si h; simp [recvLoop] at h
  | cons n rest ih =>
    intro si h
    by_cases h0 : si = some 0
    · exact ⟨[], by simp [recvLoop, h0]⟩
    · cases n with
      | publish t pl =>
        obtain ⟨q, hq⟩ := ih (si.map (fun k => k - 1))
          (by simpa [recvLoop, h0] using h)
        exact ⟨(map_publish t pl).toList ++ q, by simp [recvLoop, h0, hq]⟩
      | otherOk =>
        obtain ⟨q, hq⟩ := ih (si.map (fun k => k - 1))
          (by simpa [recvLoop, h0] using h)
        exact ⟨q, by simp [recvLoop, h0, hq]⟩
      | errNotif m => simp [recvLoop, h0] at h

/-- Without TLS, no loop iteration can make `run_listener` return an error. -/
theorem run_loop_no_error_of_no_tls (cfg : MqttConfig) (htls : cfg.tls = false) :
    ∀ (scripts : List AttemptScript) (b : Nat) (m : String),
    (run_loop cfg b scripts).outcome ≠ Outcome.errored m := by
  intro scripts
  induction scripts with
  | nil => intro b m h; simp [run_loop] at h
  | cons s rest ih =>
    intro b m h
    have h2 : build_options cfg s = Except.ok () := by simp [build_options, htls]
    cases h1 : s.stopAtTop with
    | true =>
      have hstep := attemptStep_stopAtTop cfg b s h1
      simp [run_loop, hstep] at h
    | false =>
      cases hr : (recvLoop s.notifs s.stopIdx).2.1 with
      | true =>
        have hstep := attemptStep_recvStop cfg b s h1 h2 hr
        simp [run_loop, hstep] at h
      | false =>
        cases h4 : s.stopDuringWait with
        | true =>
          have hstep := attemptStep_waitStop cfg b s h1 h2 hr h4
          simp [run_loop, hstep] at h
        | false =>
          have hstep := attemptStep_plain cfg b s h1 h2 hr h4
          simp only [run_loop, hstep] at h
          exact ih (min (waitOf b s * 2) 30) m h

/-- A failing attempt (no stop activity) emits its `Disconnected(reason)` and
the loop carries on with the remaining script. -/
theorem run_loop_failure_disconnect_retry (cfg : MqttConfig) (b : Nat)
    (s : AttemptScript) (rest : List AttemptScript)
    (h1 : s.stopAtTop = false) (h2 : build_options cfg s = Except.ok ())
    (h3 : s.stopIdx = none) (h4 : s.stopDuringWait = false) :
    MqttEvent.disconnected ((recvLoop s.notifs none).2.2.getD "connection closed")
      ∈ (run_loop cfg b (s :: rest)).events ∧
    (run_loop cfg b (s :: rest)).outcome
      = (run_loop cfg (min (waitOf b s * 2) 30) rest).outcome := by
  have hr : (recvLoop s.notifs s.stopIdx).2.1 = false := by
    rw [h3]; exact recvLoop_none_not_stopped s.notifs
  have hstep := attemptStep_plain cfg b s h1 h2 hr h4
  rw [h3] at hstep
  constructor
  · simp [run_loop, hstep]
  · simp [run_loop, hstep]

/-- Whenever the loop terminates via the stop signal, the event stream ends
with the stop-requested status followed by the terminal
`Disconnected("stopped")`. -/
theorem run_loop_stop_epilogue (cfg : MqttConfig) :
    ∀ (scripts : List AttemptScript) (b : Nat),
    (run_loop cfg b scripts).outcome = Outcome.stopped →
    ∃ pre, (run_loop cfg b scripts).events
      = pre ++ [MqttEvent.status "MQTT stop requested",
                MqttEvent.disconnected "stopped"] := by
  intro scripts
  induction scripts with
  | nil => intro b h; simp [run_loop] at h
  | cons s rest ih =>
    intro b h
    cases h1 : s.stopAtTop with
    | true =>
      have hstep := attemptStep_stopAtTop cfg b s h1
      exact ⟨[], by simp [run_loop, hstep]⟩
    | false =>
      cases hbuild : build_options cfg s with
      | error m =>
        have hstep := attemptStep_buildErr cfg b s m h1 hbuild
        simp [run_loop, hstep] at h
      | ok u =>
        cases u
        cases hr : (recvLoop s.notifs s.stopIdx).2.1 with
        | true =>
          have hstep := attemptStep_recvStop cfg b s h1 hbuild hr
          obtain ⟨q, hq⟩ := recvLoop_stop_suffix s.notifs s.stopIdx hr
          refine ⟨[MqttEvent.status
              ("MQTT connected; subs: " ++ joinComma (subscriptions cfg)),
            MqttEvent.connected] ++ q, ?_⟩
          simp [run_loop, hstep, hq]
        | false =>
          cases h4 : s.stopDuringWait with
          | true =>
            have hstep := attemptStep_waitStop cfg b s h1 hbuild hr h4
            refine ⟨[MqttEvent.status
                ("MQTT connected; subs: " ++ joinComma (subscriptions cfg)),
              MqttEvent.connected] ++ (recvLoop s.notifs s.stopIdx).1 ++
              [MqttEvent.disconnected
                  ((recvLoop s.notifs s.stopIdx).2.2.getD "connection closed"),
               MqttEvent.status ("Reconnecting in " ++ toString (waitOf b s) ++ "s")], ?_⟩
            simp [run_loop, hstep]
          | false =>
            have hstep := attemptStep_plain cfg b s h1 hbuild hr h4
            simp only [run_loop, hstep] at h
            obtain ⟨pre, hpre⟩ := ih (min (waitOf b s * 2) 30) h
            refine ⟨[MqttEvent.status
                ("MQTT connected; subs: " ++ joinComma (subscriptions cfg)),
              MqttEvent.connected] ++ (recvLoop s.notifs s.stopIdx).1 ++
              [MqttEvent.disconnected
                  ((recvLoop s.notifs s.stopIdx).2.2.getD "connection closed"),
               MqttEvent.status ("Reconnecting in " ++ toString (waitOf b s) ++ "s")] ++ pre, ?_⟩
            simp [run_loop, hstep, hpre]

/-- Each attempt whose option-building succeeds starts its event stream with
the subscription status and the `Connected` event, before any broker
notification is processed. -/
theorem run_loop_connected_head (cfg : MqttConfig) (b : Nat)
    (s : AttemptScript) (rest : List AttemptScript)
    (h1 : s.stopAtTop = false) (h2 : build_options cfg s = Except.ok ()) :
    (run_loop cfg b (s :: rest)).events.take 2
      = [MqttEvent.status ("MQTT connected; subs: " ++ joinComma (subscriptions cfg)),
         MqttEvent.connected] := by
  cases hr : (recvLoop s.notifs s.stopIdx).2.1 with
  | true =>
    have hstep := attemptStep_recvStop cfg b s h1 h2 hr
    simp [run_loop, hstep]
  | false =>
    cases h4 : s.stopDuringWait with
    | true =>
      have hstep := attemptStep_waitStop cfg b s h1 h2 hr h4
      simp [run_loop, hstep]
    | false =>
      have hstep := attemptStep_plain cfg b s h1 h2 hr h4
      simp [run_loop, hstep]

/-- C1 (amended): failures observed inside the connection event loop are
surfaced as `Disconnected(reason)` and the loop retries with the next backoff;
without TLS (so option building cannot fail) `run_listener` never returns an
error.  (A TLS option-building failure instead propagates out of the function;
see the counterexample.) -/
theorem listener_failure_semantics :
    (∀ (cfg : MqttConfig) (scripts : List AttemptScript) (m : String),
      cfg.tls = false → (run_listener cfg scripts).outcome ≠ Outcome.errored m) ∧
    (∀ (cfg : MqttConfig) (b : Nat) (s : AttemptScript) (rest : List AttemptScript),
      s.stopAtTop = false → build_options cfg s = Except.ok () →
      s.stopIdx = none → s.stopDuringWait = false →
      MqttEvent.disconnected ((recvLoop s.notifs none).2.2.getD "connection closed")
        ∈ (run_loop cfg b (s :: rest)).events ∧
      (run_loop cfg b (s :: rest)).outcome
        = (run_loop cfg (min (waitOf b s * 2) 30) rest).outcome) := by
  constructor
  · intro cfg scripts m htls
    exact run_loop_no_error_of_no_tls cfg htls scripts 1 m
  · intro cfg b s rest h1 h2 h3 h4
    exact run_loop_failure_disconnect_retry cfg b s rest h1 h2 h3 h4

/-- Witness for C1: a non-TLS run with one failing attempt does not error,
and surfaces the transport error as a `Disconnected` event. -/
theorem listener_failure_semantics_witness :
    (cfgP (some "home")).tls = false ∧
    (run_listener (cfgP (some "home")) [sErr]).outcome ≠ Outcome.errored "boom" ∧
    MqttEvent.disconnected "connection refused"
      ∈ (run_loop (cfgP (some "home")) 1 [sErr]).events :=
  ⟨rfl,
   listener_failure_semantics.1 (cfgP (some "home")) [sErr] "boom" rfl,
   by exact (listener_failure_semantics.2 (cfgP (some "home")) 1 sErr []
      rfl rfl rfl rfl).1⟩

/-- C1 counterexample: with TLS enabled and a malformed CA bundle,
`run_listener` returns the error with no `Disconnected` event emitted at all,
instead of surfacing it as a recoverable `Disconnected(reason)`. -/
theorem listener_ca_error_terminates :
    run_listener cfgTls [sBadCa]
      = ⟨[], [], Outcome.errored "failed to parse CA certs"⟩ := by
  decide

/-- C2 (amended): after the stop signal is received — at the loop top, during
the receive loop, or during a backoff wait — the loop terminates and the event
stream ends with a `Status("MQTT stop requested")` followed by the single
terminal `Disconnected("stopped")`. -/
theorem listener_stop_epilogue (cfg : MqttConfig) (scripts : List AttemptScript)
    (h : (run_listener cfg scripts).outcome = Outcome.stopped) :
    ∃ pre, (run_listener cfg scripts).events
      = pre ++ [MqttEvent.status "MQTT stop requested",
                MqttEvent.disconnected "stopped"] :=
  run_loop_stop_epilogue cfg scripts 1 h

/-- Witness for C2 at a stop arriving before the first attempt. -/
theorem listener_stop_epilogue_witness :
    (run_listener (cfgP (some "home")) [sStopTop]).outcome = Outcome.stopped ∧
    ∃ pre, (run_listener (cfgP (some "home")) [sStopTop]).events
      = pre ++ [MqttEvent.status "MQTT stop requested",
                MqttEvent.disconnected "stopped"] :=
  ⟨by decide, listener_stop_epilogue (cfgP (some "home")) [sStopTop] (by decide)⟩

/-- C2 counterexample: after a stop the listener also emits a
`Status("MQTT stop requested")` event, so the terminal `Disconnected("stopped")`
is not the only post-stop event. -/
theorem stop_also_emits_status :
    (run_listener (cfgP (some "home")) [sStopTop]).events
      = [MqttEvent.status "MQTT stop requested", MqttEvent.disconnected "stopped"] ∧
    (run_listener (cfgP (some "home")) [sStopTop]).events
      ≠ [MqttEvent.disconnected "stopped"] := by
  decide

/-- C3 (amended): in every attempt whose option building succeeds, the
subscription `Status` and the `Connected` event are the first two events of
the attempt, emitted unconditionally before any broker notification (hence
before any acknowledgment) is processed. -/
theorem connected_emitted_at_attempt_start (cfg : MqttConfig) (b : Nat)
    (s : AttemptScript) (rest : List AttemptScript)
    (h1 : s.stopAtTop = false) (h2 : build_options cfg s = Except.ok ()) :
    (run_loop cfg b (s :: rest)).events.take 2
      = [MqttEvent.status ("MQTT connected; subs: " ++ joinComma (subscriptions cfg)),
         MqttEvent.connected] :=
  run_loop_connected_head cfg b s rest h1 h2

/-- Witness for C3 at a concrete failing attempt. -/
theorem connected_emitted_at_attempt_start_witness :
    sErr.stopAtTop = false ∧
    build_options (cfgP (some "home")) sErr = Except.ok () ∧
    (run_loop (cfgP (some "home")) 1 [sErr]).events.take 2
      = [MqttEvent.status
          ("MQTT connected; subs: " ++ joinComma (subscriptions (cfgP (some "home")))),
         MqttEvent.connected] :=
  ⟨rfl, rfl, connected_emitted_at_attempt_start (cfgP (some "home")) 1 sErr [] rfl rfl⟩

/-- C3 counterexample: an attempt whose only notification is a connection
error — so nothing was ever acknowledged by the broker — still emits
`Connected` (as its second event). -/
theorem connected_without_ack :
    run_listener (cfgP (some "home")) [sErr]
      = ⟨[MqttEvent.status "MQTT connected; subs: home/#", MqttEvent.connected,
          MqttEvent.disconnected "connection refused",
          MqttEvent.status "Reconnecting in 1s"], [1], Outcome.ranOut⟩ ∧
    MqttEvent.connected ∈ (run_listener (cfgP (some "home")) [sErr]).events := by
  decide

/-! ## C5 / C6: configuration normalization -/

/-- Elements surviving deduplication come from the original list. -/
theorem dedupBy_subset {α : Type} (key : α → String) :
    ∀ (l : List α) (seen : List String) (x : α),
    x ∈ dedupBy key l seen → x ∈ l := by
  intro l
  induction l with
  | nil => intro seen x h; simp [dedupBy] at h
  | cons y rest ih =>
    intro seen x h
    by_cases hy : key y ∈ seen
    · simp only [dedupBy, if_pos hy] at h
      exact List.mem_cons_of_mem y (ih seen x h)
    · simp only [dedupBy, if_neg hy] at h
      rcases List.mem_cons.mp h with h | h
      · exact h ▸ List.mem_cons_self y rest
      · exact List.mem_cons_of_mem y (ih _ x h)

/-- A key present in the list and not yet seen survives deduplication. -/
theorem dedupBy_key_mem {α : Type} (key : α → String) :
    ∀ (l : List α) (seen : List String) (k : String),
    k ∈ l.map key → k ∉ seen → k ∈ (dedupBy key l seen).map key := by
  intro l
  induction l with
  | nil => intro seen k h _; simp at h
  | cons y rest ih =>
    intro seen k hk hns
    rw [List.map_cons] at hk
    rcases List.mem_cons.mp hk with h | h
    · by_cases hy : key y ∈ seen
      · exact absurd (h ▸ hy) hns
      · simp [dedupBy, if_neg hy, List.map_cons, h]
    · by_cases hy : key y ∈ seen
      · rw [dedupBy, if_pos hy]
        exact ih seen k h hns
      · by_cases hky : k = key y
        · simp [dedupBy, if_neg hy, List.map_cons, hky]
        · have hmem := ih (key y :: seen) k h
            (by simp [List.mem_cons, hky, hns])
          rw [dedupBy, if_neg hy, List.map_cons]
          exact List.mem_cons_of_mem _ hmem

/-- Deduplication yields pairwise-distinct keys, none of them already seen. -/
theorem dedupBy_nodup_disjoint {α : Type} (key : α → String) :
    ∀ (l : List α) (seen : List String),
    ((dedupBy key l seen).map key).Nodup ∧
    ∀ k ∈ (dedupBy key l seen).map key, k ∉ seen := by
  intro l
  induction l with
  | nil => intro seen; simp [dedupBy]
  | cons y rest ih =>
    intro seen
    by_cases hy : key y ∈ seen
    · simpa [dedupBy, if_pos hy] using ih seen
    · obtain ⟨ihn, ihd⟩ := ih (key y :: seen)
      refine ⟨?_, ?_⟩
      · simp only [dedupBy, if_neg hy, List.map_cons, List.nodup_cons]
        exact ⟨fun hmem => (ihd _ hmem) (List.mem_cons_self _ _), ihn⟩
      · intro k hkmem
        simp only [dedupBy, if_neg hy, List.map_cons, List.mem_cons] at hkmem
        rcases hkmem with h | h
        · exact h ▸ hy
        · exact fun hks => (ihd k h) (List.mem_cons_of_mem _ hks)

/-- Deduplication is the identity on a list of distinct, unseen keys. -/
theorem dedupBy_id_of_nodup {α : Type} (key : α → String) :
    ∀ (l : List α) (seen : List String),
    (l.map key).Nodup → (∀ k ∈ l.map key, k ∉ seen) →
    dedupBy key l seen = l := by
  intro l
  induction l with
  | nil => intro seen _ _; rfl
  | cons y rest ih =>
    intro seen hnd hdisj
    have hy : key y ∉ seen := hdisj (key y) (by simp)
    simp only [List.map_cons, List.nodup_cons] at hnd
    rw [dedupBy, if_neg hy, ih (key y :: seen) hnd.2]
    intro k hk
    simp only [List.mem_cons, not_or]
    exact ⟨fun he => hnd.1 (he ▸ hk), hdisj k (by simp [hk])⟩

/-- The first occurrence of a key survives deduplication as the kept element. -/
theorem dedupBy_find_first {α : Type} (key : α → String) :
    ∀ (l : List α) (seen : List String) (x : α),
    l.find? (fun y => key y == key x) = some x → key x ∉ seen →
    x ∈ dedupBy key l seen := by
  intro l
  induction l with
  | nil => intro seen x h _; simp at h
  | cons y rest ih =>
    intro seen x hfind hns
    by_cases hbeq : key y = key x
    · have hb : (key y == key x) = true := by simp [hbeq]
      have hyx : y = x := by
        have hsome : some y = some x := by
          simpa [List.find?, hb] using hfind
        exact Option.some.inj hsome
      subst hyx
      rw [dedupBy, if_neg (hbeq ▸ hns)]
      exact List.mem_cons_self _ _
    · have hb : (key y == key x) = false := by simp [hbeq]
      have hfind' : rest.find? (fun z => key z == key x) = some x := by
        simpa [List.find?, hb] using hfind
      by_cases hy : key y ∈ seen
      · rw [dedupBy, if_pos hy]
        exact ih seen x hfind' hns
      · rw [dedupBy, if_neg hy]
        refine List.mem_cons_of_mem y (ih (key y :: seen) x hfind' ?_)
        intro hmem
        rcases List.mem_cons.mp hmem with he | he
        · exact hbeq he.symm
        · exact hns he

/-- The built-in default gauge lists carry pairwise-distinct ids. -/
theorem default_gauges_nodup (i : String) :
    ((default_gauges_for i).map (fun g => g.id)).Nodup := by
  by_cases h1 : i = "air_quality"
  · subst h1; decide
  by_cases h2 : i = "gas"
  · subst h2; decide
  by_cases h3 : i = "environment"
  · subst h3; decide
  simp [default_gauges_for, h1, h2, h3]

/-- Gauge normalization never changes the section id. -/
theorem section_norm_id (s : DashboardSectionConfig) :
    (DashboardSectionConfig.normalize s).id = s.id := by
  by_cases hg : s.gauges = [] <;>
    simp [DashboardSectionConfig.normalize, hg]

/-- After gauge normalization, gauge ids are pairwise distinct. -/
theorem section_norm_nodup (s : DashboardSectionConfig) :
    ((DashboardSectionConfig.normalize s).gauges.map (fun g => g.id)).Nodup := by
  by_cases hg : s.gauges = []
  · simp only [DashboardSectionConfig.normalize, hg, if_pos]
    exact default_gauges_nodup s.id
  · simp only [DashboardSectionConfig.normalize, if_neg hg]
    rw [List.map_append]
    apply List.Nodup.append
    · exact (dedupBy_nodup_disjoint _ s.gauges []).1
    · exact List.Nodup.sublist
        (List.Sublist.map _ (List.filter_sublist _)) (default_gauges_nodup s.id)
    · intro a ha hb
      obtain ⟨g, hgk, hgid⟩ := List.mem_map.mp ha
      obtain ⟨g', hg'f, hg'id⟩ := List.mem_map.mp hb
      have hgin : g ∈ s.gauges := dedupBy_subset _ s.gauges [] g hgk
      have hseen : a ∈ s.gauges.map (fun g => g.id) :=
        hgid ▸ List.mem_map_of_mem _ hgin
      obtain ⟨_, hp⟩ := List.mem_filter.mp hg'f
      have : g'.id ∉ s.gauges.map (fun g => g.id) := by simpa using hp
      exact this (hg'id ▸ hseen)

/-- After gauge normalization, every default gauge id for the section is
present. -/
theorem section_norm_defaults_mem (s : DashboardSectionConfig) :
    ∀ g ∈ default_gauges_for s.id,
      g.id ∈ (DashboardSectionConfig.normalize s).gauges.map (fun g => g.id) := by
  intro g hgmem
  by_cases hg : s.gauges = []
  · simp only [DashboardSectionConfig.normalize, hg, if_pos]
    exact List.mem_map_of_mem _ hgmem
  · simp only [DashboardSectionConfig.normalize, if_neg hg]
    rw [List.map_append, List.mem_append]
    by_cases hseen : g.id ∈ s.gauges.map (fun g => g.id)
    · left
      exact dedupBy_key_mem _ s.gauges [] g.id hseen (by simp)
    · right
      refine List.mem_map_of_mem _ ?_
      rw [List.mem_filter]
      exact ⟨hgmem, by simpa using hseen⟩

/-- Every gauge surviving normalization comes from the original list or from
the section's defaults. -/
theorem section_norm_origin (s : DashboardSectionConfig) :
    ∀ g ∈ (DashboardSectionConfig.normalize s).gauges,
      g ∈ s.gauges ∨ g ∈ default_gauges_for s.id := by
  intro g hmem
  by_cases hg : s.gauges = []
  · right
    simpa [DashboardSectionConfig.normalize, hg] using hmem
  · simp only [DashboardSectionConfig.normalize, if_neg hg] at hmem
    rcases List.mem_append.mp hmem with h | h
    · left; exact dedupBy_subset _ s.gauges [] g h
    · right; exact (List.mem_filter.mp h).1

/-- The ids of the original gauges all survive normalization. -/
theorem section_norm_orig_ids (s : DashboardSectionConfig) :
    ∀ g ∈ s.gauges,
      g.id ∈ (DashboardSectionConfig.normalize s).gauges.map (fun g => g.id) := by
  intro g hmem
  have hg : s.gauges ≠ [] := by
    intro he
    rw [he] at hmem
    simp at hmem
  simp only [DashboardSectionConfig.normalize, if_neg hg]
  rw [List.map_append, List.mem_append]
  left
  exact dedupBy_key_mem _ s.gauges [] g.id (List.mem_map_of_mem _ hmem) (by simp)

/-- A section with distinct gauge ids containing all its defaults is a fixed
point of gauge normalization. -/
theorem section_norm_fixed (s : DashboardSectionConfig)
    (h1 : (s.gauges.map (fun g => g.id)).Nodup)
    (h2 : ∀ g ∈ default_gauges_for s.id,
      g.id ∈ s.gauges.map (fun g => g.id)) :
    DashboardSectionConfig.normalize s = s := by
  obtain ⟨i, e, gs⟩ := s
  by_cases hg : gs = []
  · subst hg
    have hD : default_gauges_for i = [] := by
      cases hDc : default_gauges_for i with
      | nil => rfl
      | cons a t =>
        have hmem := h2 a (by rw [hDc]; exact List.mem_cons_self a t)
        simp at hmem
    simp [DashboardSectionConfig.normalize, hD]
  · simp only [DashboardSectionConfig.normalize, if_neg hg]
    have hkept : dedupBy (fun g => g.id) gs [] = gs :=
      dedupBy_id_of_nodup _ gs [] h1 (by simp)
    have hfilt : (default_gauges_for i).filter
        (fun g => g.id ∉ gs.map (fun g => g.id)) = [] := by
      rw [List.filter_eq_nil_iff]
      intro a ha
      simpa using h2 a ha
    rw [hkept, hfilt, List.append_nil]

/-- Gauge normalization is idempotent. -/
theorem section_normalize_idem (s : DashboardSectionConfig) :
    DashboardSectionConfig.normalize (DashboardSectionConfig.normalize s)
      = DashboardSectionConfig.normalize s := by
  apply section_norm_fixed
  · exact section_norm_nodup s
  · intro g hgmem
    rw [section_norm_id] at hgmem
    exact section_norm_defaults_mem s g hgmem

/-- Normalizing every section of a list preserves the id list. -/
theorem map_norm_ids (l : List DashboardSectionConfig) :
    (l.map DashboardSectionConfig.normalize).map (fun s => s.id)
      = l.map (fun s => s.id) := by
  rw [List.map_map]
  exact List.map_congr_left (fun x _ => section_norm_id x)

/-- The built-in default sections carry their own default gauges. -/
theorem default_section_gauges :
    ∀ t ∈ default_sections, t.gauges = default_gauges_for t.id := by
  decide

/-- The built-in default section ids are pairwise distinct. -/
theorem default_sections_ids_nodup :
    (default_sections.map (fun s => s.id)).Nodup := by
  decide

/-- Every built-in default section id is one of the four known ids. -/
theorem default_sections_ids_known :
    ∀ t ∈ default_sections,
      t.id ∈ ["overview", "air_quality", "gas", "environment"] := by
  decide

/-- Deduplication of a non-empty list with nothing seen is non-empty. -/
theorem dedupBy_ne_nil {α : Type} (key : α → String) (l : List α)
    (h : l ≠ []) : dedupBy key l [] ≠ [] := by
  cases l with
  | nil => exact absurd rfl h
  | cons x rest =>
    rw [dedupBy, if_neg (List.not_mem_nil (key x))]
    exact List.cons_ne_nil x _

/-- After dashboard normalization the section ids are pairwise distinct. -/
theorem dashboard_norm_ids_nodup (d : DashboardConfig) :
    ((DashboardConfig.normalize d).sections.map (fun s => s.id)).Nodup := by
  by_cases hd : d.sections = []
  · simp only [DashboardConfig.normalize, hd, if_pos]
    decide
  · simp only [DashboardConfig.normalize, if_neg hd]
    rw [map_norm_ids, List.map_append, map_norm_ids]
    apply List.Nodup.append
    · exact (dedupBy_nodup_disjoint _ d.sections []).1
    · exact List.Nodup.sublist
        (List.Sublist.map _ (List.filter_sublist _)) default_sections_ids_nodup
    · intro a ha hb
      obtain ⟨y, hyk, hyid⟩ := List.mem_map.mp ha
      obtain ⟨t, htf, htid⟩ := List.mem_map.mp hb
      have hyin : y ∈ d.sections := dedupBy_subset _ d.sections [] y hyk
      have hseen : a ∈ d.sections.map (fun s => s.id) :=
        hyid ▸ List.mem_map_of_mem _ hyin
      obtain ⟨_, hp⟩ := List.mem_filter.mp htf
      have hnot : t.id ∉ d.sections.map (fun s => s.id) := by simpa using hp
      exact hnot (htid ▸ hseen)

/-- Every section in a normalized dashboard is a fixed point of section
normalization. -/
theorem dashboard_norm_sections_fixed (d : DashboardConfig) :
    ∀ s ∈ (DashboardConfig.normalize d).sections,
      DashboardSectionConfig.normalize s = s := by
  by_cases hd : d.sections = []
  · obtain ⟨secs⟩ := d
    simp only at hd
    subst hd
    decide
  · intro s hs
    simp only [DashboardConfig.normalize, if_neg hd] at hs
    obtain ⟨y, _, rfl⟩ := List.mem_map.mp hs
    exact section_normalize_idem y

/-- A normalized dashboard has at least one section. -/
theorem dashboard_norm_nonempty (d : DashboardConfig) :
    (DashboardConfig.normalize d).sections ≠ [] := by
  by_cases hd : d.sections = []
  · obtain ⟨secs⟩ := d
    simp only at hd
    subst hd
    decide
  · simp only [DashboardConfig.normalize, if_neg hd]
    intro he
    rw [List.map_eq_nil_iff, List.append_eq_nil, List.map_eq_nil_iff] at he
    exact dedupBy_ne_nil _ d.sections hd he.1

/-- After dashboard normalization, every built-in default section id is
present, in a section containing all its default gauge ids. -/
theorem dashboard_norm_defaults_present (d : DashboardConfig) :
    ∀ did ∈ ["overview", "air_quality", "gas", "environment"],
    ∃ s ∈ (DashboardConfig.normalize d).sections, s.id = did ∧
      ∀ g ∈ default_gauges_for did, g.id ∈ s.gauges.map (fun g => g.id) := by
  by_cases hd : d.sections = []
  · obtain ⟨secs⟩ := d
    simp only at hd
    subst hd
    decide
  · intro did hdid
    by_cases hseen : did ∈ d.sections.map (fun s => s.id)
    · have hk := dedupBy_key_mem _ d.sections [] did hseen (by simp)
      obtain ⟨y, hy, hyid⟩ := List.mem_map.mp hk
      refine ⟨DashboardSectionConfig.normalize (DashboardSectionConfig.normalize y),
        ?_, ?_, ?_⟩
      · simp only [DashboardConfig.normalize, if_neg hd]
        apply List.mem_map_of_mem
        rw [List.mem_append]
        exact Or.inl (List.mem_map_of_mem _ hy)
      · rw [section_norm_id, section_norm_id, hyid]
      · intro g hg
        apply section_norm_defaults_mem
        rw [section_norm_id, hyid]
        exact hg
    · obtain ⟨t, ht, htid⟩ : ∃ t ∈ default_sections, t.id = did := by
        simp only [List.mem_cons, List.not_mem_nil, or_false] at hdid
        rcases hdid with h | h | h | h <;> subst h
        · exact ⟨DashboardSectionConfig.new "overview", by decide, rfl⟩
        · exact ⟨DashboardSectionConfig.new "air_quality", by decide, rfl⟩
        · exact ⟨DashboardSectionConfig.new "gas", by decide, rfl⟩
        · exact ⟨DashboardSectionConfig.new "environment", by decide, rfl⟩
      have htf : t ∈ default_sections.filter
          (fun s => s.id ∉ d.sections.map (fun s => s.id)) := by
        rw [List.mem_filter]
        refine ⟨ht, ?_⟩
        simpa [htid] using hseen
      refine ⟨DashboardSectionConfig.normalize t, ?_, ?_, ?_⟩
      · simp only [DashboardConfig.normalize, if_neg hd]
        apply List.mem_map_of_mem
        rw [List.mem_append]
        exact Or.inr htf
      · rw [section_norm_id, htid]
      · intro g hg
        apply section_norm_defaults_mem
        rw [htid]
        exact hg

/-- Every input section id is still present after dashboard normalization. -/
theorem dashboard_norm_sections_preserved (d : DashboardConfig) :
    ∀ s0 ∈ d.sections,
      ∃ s ∈ (DashboardConfig.normalize d).sections, s.id = s0.id := by
  intro s0 h0
  have hd : d.sections ≠ [] := by
    intro he
    rw [he] at h0
    simp at h0
  have hseen : s0.id ∈ d.sections.map (fun s => s.id) := List.mem_map_of_mem _ h0
  have hk := dedupBy_key_mem _ d.sections [] s0.id hseen (by simp)
  obtain ⟨y, hy, hyid⟩ := List.mem_map.mp hk
  refine ⟨DashboardSectionConfig.normalize (DashboardSectionConfig.normalize y),
    ?_, ?_⟩
  · simp only [DashboardConfig.normalize, if_neg hd]
    apply List.mem_map_of_mem
    rw [List.mem_append]
    exact Or.inl (List.mem_map_of_mem _ hy)
  · rw [section_norm_id, section_norm_id, hyid]

/-- Every gauge of a normalized dashboard is either a built-in default for
its section or comes verbatim from an input section with the same id. -/
theorem dashboard_norm_gauge_origin (d : DashboardConfig) :
    ∀ s ∈ (DashboardConfig.normalize d).sections, ∀ g ∈ s.gauges,
      g ∈ default_gauges_for s.id ∨
      ∃ s0 ∈ d.sections, s0.id = s.id ∧ g ∈ s0.gauges := by
  by_cases hd : d.sections = []
  · obtain ⟨secs⟩ := d
    simp only at hd
    subst hd
    decide
  · intro s hs g hg
    simp only [DashboardConfig.normalize, if_neg hd] at hs
    obtain ⟨y, hy, rfl⟩ := List.mem_map.mp hs
    rcases List.mem_append.mp hy with hyl | hyr
    · obtain ⟨z, hz, rfl⟩ := List.mem_map.mp hyl
      rw [section_normalize_idem] at hg
      rcases section_norm_origin z g hg with horig | hdef
      · right
        exact ⟨z, dedupBy_subset _ d.sections [] z hz,
          by rw [section_normalize_idem, section_norm_id], horig⟩
      · left
        rw [section_normalize_idem, section_norm_id]
        exact hdef
    · have hyd : y ∈ default_sections := (List.mem_filter.mp hyr).1
      have hyg : y.gauges = default_gauges_for y.id := default_section_gauges y hyd
      rcases section_norm_origin y g hg with horig | hdef
      · left
        rw [section_norm_id]
        rw [hyg] at horig
        exact horig
      · left
        rw [section_norm_id]
        exact hdef

/-- The first input section with a given id keeps all its gauge ids in the
normalized dashboard. -/
theorem dashboard_norm_first_occurrence (d : DashboardConfig) :
    ∀ s0 : DashboardSectionConfig,
    d.sections.find? (fun t => t.id == s0.id) = some s0 →
    ∃ s ∈ (DashboardConfig.normalize d).sections, s.id = s0.id ∧
      ∀ g ∈ s0.gauges, g.id ∈ s.gauges.map (fun g => g.id) := by
  intro s0 hfind
  have h0 : s0 ∈ d.sections := List.mem_of_find?_eq_some hfind
  have hd : d.sections ≠ [] := by
    intro he
    rw [he] at h0
    simp at h0
  have hkept : s0 ∈ dedupBy (fun s => s.id) d.sections [] :=
    dedupBy_find_first _ d.sections [] s0 hfind (by simp)
  refine ⟨DashboardSectionConfig.normalize (DashboardSectionConfig.normalize s0),
    ?_, ?_, ?_⟩
  · simp only [DashboardConfig.normalize, if_neg hd]
    apply List.mem_map_of_mem
    rw [List.mem_append]
    exact Or.inl (List.mem_map_of_mem _ hkept)
  · rw [section_norm_id, section_norm_id]
  · intro g hg
    rw [section_normalize_idem]
    exact section_norm_orig_ids s0 g hg

/-- A dashboard with distinct section ids, all sections normalization-fixed,
and every default id present is a fixed point of dashboard normalization. -/
theorem dashboard_norm_fixed (d : DashboardConfig)
    (h1 : (d.sections.map (fun s => s.id)).Nodup)
    (h2 : ∀ s ∈ d.sections, DashboardSectionConfig.normalize s = s)
    (h3 : ∀ t ∈ default_sections, t.id ∈ d.sections.map (fun s => s.id))
    (h4 : d.sections ≠ []) :
    DashboardConfig.normalize d = d := by
  obtain ⟨secs⟩ := d
  simp only at h1 h2 h3 h4
  simp only [DashboardConfig.normalize, if_neg h4]
  have hkept : dedupBy (fun s => s.id) secs [] = secs :=
    dedupBy_id_of_nodup _ secs [] h1 (by simp)
  have hmap : secs.map DashboardSectionConfig.normalize = secs := by
    calc secs.map DashboardSectionConfig.normalize
        = secs.map id := List.map_congr_left (fun x hx => h2 x hx)
      _ = secs := List.map_id secs
  have hfilt : default_sections.filter
      (fun s => s.id ∉ secs.map (fun s => s.id)) = [] := by
    rw [List.filter_eq_nil_iff]
    intro t ht
    simpa using h3 t ht
  rw [hkept, hmap, hfilt, List.append_nil, hmap]

/-- C5: dashboard normalization is idempotent on every configuration,
including ones with duplicate and unknown section or gauge ids. -/
theorem normalize_idempotent (d : DashboardConfig) :
    DashboardConfig.normalize (DashboardConfig.normalize d)
      = DashboardConfig.normalize d := by
  apply dashboard_norm_fixed
  · exact dashboard_norm_ids_nodup d
  · exact dashboard_norm_sections_fixed d
  · intro t ht
    obtain ⟨s, hs, hsid, _⟩ := dashboard_norm_defaults_present d t.id
      (default_sections_ids_known t ht)
    exact hsid ▸ List.mem_map_of_mem _ hs
  · exact dashboard_norm_nonempty d

/-- After dashboard normalization, every section's gauge ids are pairwise
distinct. -/
theorem dashboard_norm_gauges_nodup (d : DashboardConfig) :
    ∀ s ∈ (DashboardConfig.normalize d).sections,
      (s.gauges.map (fun g => g.id)).Nodup := by
  by_cases hd : d.sections = []
  · obtain ⟨secs⟩ := d
    simp only at hd
    subst hd
    decide
  · intro s hs
    simp only [DashboardConfig.normalize, if_neg hd] at hs
    obtain ⟨y, _, rfl⟩ := List.mem_map.mp hs
    exact section_norm_nodup y

/-- C6: after normalization no two sections share an id and no section holds
two gauges with one id; each built-in default section id is present with all
its built-in default gauge ids; every input section id survives; every gauge
is a built-in default for its section or comes from an input section of the
same id (so nothing is invented for unknown ids); and the first input section
with a given id keeps all its gauge ids. -/
theorem normalize_invariants (d : DashboardConfig) :
    ((DashboardConfig.normalize d).sections.map (fun s => s.id)).Nodup ∧
    (∀ s ∈ (DashboardConfig.normalize d).sections,
      (s.gauges.map (fun g => g.id)).Nodup) ∧
    (∀ did ∈ ["overview", "air_quality", "gas", "environment"],
      ∃ s ∈ (DashboardConfig.normalize d).sections, s.id = did ∧
        ∀ g ∈ default_gauges_for did, g.id ∈ s.gauges.map (fun g => g.id)) ∧
    (∀ s0 ∈ d.sections,
      ∃ s ∈ (DashboardConfig.normalize d).sections, s.id = s0.id) ∧
    (∀ s ∈ (DashboardConfig.normalize d).sections, ∀ g ∈ s.gauges,
      g ∈ default_gauges_for s.id ∨
      ∃ s0 ∈ d.sections, s0.id = s.id ∧ g ∈ s0.gauges) ∧
    (∀ s0 : DashboardSectionConfig,
      d.sections.find? (fun t => t.id == s0.id) = some s0 →
      ∃ s ∈ (DashboardConfig.normalize d).sections, s.id = s0.id ∧
        ∀ g ∈ s0.gauges, g.id ∈ s.gauges.map (fun g => g.id)) :=
  ⟨dashboard_norm_ids_nodup d, dashboard_norm_gauges_nodup d,
   dashboard_norm_defaults_present d, dashboard_norm_sections_preserved d,
   dashboard_norm_gauge_origin d, dashboard_norm_first_occurrence d⟩

/-- Witness for C6 on a configuration with duplicate known sections, an
unknown custom section, and duplicate gauges. -/
theorem normalize_invariants_witness :
    ("gas" ∈ ["overview", "air_quality", "gas", "environment"]) ∧
    (∃ s ∈ (DashboardConfig.normalize dEx).sections, s.id = "gas" ∧
      ∀ g ∈ default_gauges_for "gas", g.id ∈ s.gauges.map (fun g => g.id)) ∧
    (⟨"custom", true, [GaugeConfig.new "g", GaugeConfig.new "g"]⟩
        ∈ dEx.sections) ∧
    (∃ s ∈ (DashboardConfig.normalize dEx).sections, s.id = "custom") :=
  ⟨by decide,
   (normalize_invariants dEx).2.2.1 "gas" (by decide),
   by decide,
   (normalize_invariants dEx).2.2.2.1
     ⟨"custom", true, [GaugeConfig.new "g", GaugeConfig.new "g"]⟩ (by decide)⟩

/-! ## C9: subscription filter derivation -/

/-- `dropWhile` is the identity when the first element already fails the
predicate. -/
theorem dropWhile_eq_self_of_head (f : Char → Bool) :
    ∀ q : List Char, (∀ c, q.head? = some c → f c = false) →
    q.dropWhile f = q := by
  intro q h
  cases q with
  | nil => rfl
  | cons c r =>
    have hc := h c rfl
    simp [List.dropWhile_cons, hc]

/-- Trimming is the identity on a string with non-whitespace edges. -/
theorem trimL_eq_self (q : List Char)
    (hh : ∀ c, q.head? = some c → isWsChar c = false)
    (hl : ∀ c, q.getLast? = some c → isWsChar c = false) :
    trimL q = q := by
  unfold trimL
  rw [dropWhile_eq_self_of_head _ q hh]
  rw [dropWhile_eq_self_of_head _ q.reverse
    (fun c hc => hl c (by rwa [List.head?_reverse] at hc))]
  exact List.reverse_reverse q

/-- Stripping a trailing character is the identity when the last character
differs. -/
theorem trimEndChar_eq_self (q : List Char) (c : Char)
    (hl : ∀ x, q.getLast? = some x → x ≠ c) :
    trimEndChar q c = q := by
  unfold trimEndChar
  rw [dropWhile_eq_self_of_head _ q.reverse
    (fun x hx => decide_eq_false (hl x (by rwa [List.head?_reverse] at hx)))]
  exact List.reverse_reverse q

/-- A list not ending in `'#'` has no trailing `"/#"`. -/
theorem slashHash_not_suffix (q : List Char) (c : Char)
    (hlast : q.getLast? = some c) (hc : c ≠ '#') :
    List.isSuffixOf ['/', '#'] q = false := by
  by_contra h
  rw [Bool.not_eq_false] at h
  obtain ⟨t, ht⟩ := List.isSuffixOf_iff_suffix.mp h
  rw [← ht, List.getLast?_append] at hlast
  simp at hlast
  exact hc hlast.symm

/-- Stripping trailing `"/#"` pairs is the identity when the last character
is not `'#'`. -/
theorem trimEndStrAll_eq_self (q : List Char) (c : Char)
    (hlast : q.getLast? = some c) (hc : c ≠ '#') :
    trimEndStrAll q ['/', '#'] = q := by
  have hs := slashHash_not_suffix q c hlast hc
  unfold trimEndStrAll
  cases hq : q.length with
  | zero => rfl
  | succ n => simp [trimEndPat, hs]

/-- The configured prefix has a non-whitespace first character (vacuously
true when empty). -/
def cleanHead (p : String) : Bool :=
  match p.data.head? with
  | none => true
  | some c => !isWsChar c

/-- The configured prefix ends in a character that is neither whitespace nor
`'#'` nor `'/'` (vacuously true when empty). -/
def cleanTail (p : String) : Bool :=
  match p.data.getLast? with
  | none => true
  | some c => !isWsChar c && !(c = '#') && !(c = '/')

/-- For a prefix with clean edges, the filter is literally the prefix with
`"/#"` appended. -/
theorem subscriptions_clean (p : String) (cfg : MqttConfig)
    (htp : MqttConfig.topic_prefix cfg = some p)
    (hH : cleanHead p = true) (hT : cleanTail p = true) :
    subscriptions cfg = [p ++ "/#"] := by
  have hh : ∀ c, p.data.head? = some c → isWsChar c = false := by
    intro c hc
    unfold cleanHead at hH
    rw [hc] at hH
    simpa using hH
  have hl3 : ∀ c, p.data.getLast? = some c →
      isWsChar c = false ∧ c ≠ '#' ∧ c ≠ '/' := by
    intro c hc
    unfold cleanTail at hT
    rw [hc] at hT
    simp only [Bool.and_eq_true, Bool.not_eq_true', decide_eq_false_iff_not] at hT
    exact ⟨hT.1.1, hT.1.2, hT.2⟩
  obtain ⟨pl⟩ := p
  simp only [subscriptions, htp, Option.getD_some]
  cases hlast : pl.getLast? with
  | none =>
    have hnil : pl = [] := by
      cases pl with
      | nil => rfl
      | cons a t => simp [List.getLast?_eq_getLast] at hlast
    subst hnil
    rfl
  | some c =>
    obtain ⟨hws, hhash, hslash⟩ := hl3 c hlast
    rw [trimL_eq_self pl hh (fun x hx => (hl3 x hx).1)]
    rw [trimEndStrAll_eq_self pl c hlast hhash]
    rw [trimEndChar_eq_self pl '#'
      (fun x hx => by rw [hlast] at hx; exact (Option.some.inj hx) ▸ hhash)]
    rw [trimEndChar_eq_self pl '/'
      (fun x hx => by rw [hlast] at hx; exact (Option.some.inj hx) ▸ hslash)]

/-- C9: `run_listener` subscribes to exactly one topic filter: the configured
prefix (default `"homeassistant"`) with its trailing wildcard/slash
decorations stripped and `"/#"` appended; `"home"`, `"home/"`, `"home/#"`
(and even `"home//##"`) all yield `"home/#"`, and an undecorated prefix is
used verbatim. -/
theorem subscription_filter_derivation :
    (∀ cfg : MqttConfig, ∃ base : String, subscriptions cfg = [base ++ "/#"]) ∧
    (∀ (p : String) (cfg : MqttConfig), MqttConfig.topic_prefix cfg = some p →
      cleanHead p = true → cleanTail p = true →
      subscriptions cfg = [p ++ "/#"]) ∧
    (subscriptions (cfgP (some "home")) = ["home/#"] ∧
     subscriptions (cfgP (some "home/")) = ["home/#"] ∧
     subscriptions (cfgP (some "home/#")) = ["home/#"] ∧
     subscriptions (cfgP (some "home//##")) = ["home/#"] ∧
     subscriptions (cfgP none) = ["homeassistant/#"]) := by
  refine ⟨?_, subscriptions_clean, by decide⟩
  intro cfg
  unfold subscriptions
  exact ⟨_, rfl⟩

/-- Witness for C9 at the undecorated prefix `"abc"`. -/
theorem subscription_filter_derivation_witness :
    MqttConfig.topic_prefix (cfgP (some "abc")) = some "abc" ∧
    cleanHead "abc" = true ∧ cleanTail "abc" = true ∧
    subscriptions (cfgP (some "abc")) = ["abc/#"] :=
  ⟨rfl, by decide, by decide,
   subscription_filter_derivation.2.1 "abc" (cfgP (some "abc")) rfl
     (by decide) (by decide)⟩
